import Mathlib

/-!
Verification development for the physical texture library (texture.h).

The library stores a 2D grid of unsigned 32-bit values with uint16 extents
and persists it as a one-line comma-terminated decimal record.  This file
gives a shallow embedding of the five operations (initTexture_f,
initTexture_i, writeTexture, readTexture, freeTexture) and proves the
documented properties about them.

Modelling conventions:
* Machine integers are Nat; the uint16 / uint32 / int bounds appear as
  explicit side conditions or range checks where the C code depends on them.
* File contents are List Char; a write produces the list of characters the
  fprintf calls emit, a read parses such a list the way the fscanf calls do.
* Fallible or undefined executions return Option; none models an execution
  that has no defined result (undefined behavior, a failed allocation abort,
  or the use of an uninitialized variable).
-/

namespace TextureLib

/-- A populated texture value: extents and the owned buffer contents.
Mirrors `struct { uint16_t w, h; uint32_t *data; }` with the buffer
dereferenced into the structure. -/
structure Texture where
  w : Nat
  h : Nat
  data : List Nat
deriving DecidableEq, Repr

/-- The element count `texture->w * texture->h` as the C code computes it.
Both operands are uint16_t, which integer promotion converts to (32-bit
signed) int, so the multiplication overflows int --- undefined behavior ---
whenever the mathematical product exceeds 2147483647.  The overflowing case
is modelled as none. -/
def cSize (w h : Nat) : Option Nat :=
  if w * h ≤ 2147483647 then some (w * h) else none

/-- Decimal digits of n, most significant first, as `fprintf("%u", n)` and
`fprintf("%hu", n)` print them.  Fuel-indexed so that the definition is
structurally recursive (n + 1 units of fuel always suffice, because the
argument shrinks by a factor of ten each step). -/
def uDigitsGo : Nat → Nat → List Char → List Char
  | 0, _, acc => acc
  | fuel + 1, n, acc =>
    let acc2 := Char.ofNat (48 + n % 10) :: acc
    if n < 10 then acc2 else uDigitsGo fuel (n / 10) acc2

/-- Decimal representation of n, e.g. `uDigits 0 = ['0']`. -/
def uDigits (n : Nat) : List Char := uDigitsGo (n + 1) n []

/-- C `isdigit` on the character codes scanf cares about. -/
def isDigitC (c : Char) : Bool := 48 ≤ c.toNat && c.toNat ≤ 57

/-- C `isspace` in the C locale (the characters a scanf numeric conversion
skips): space, tab, newline, vertical tab, form feed, carriage return. -/
def isSpaceC (c : Char) : Bool :=
  c.toNat = 32 || c.toNat = 9 || c.toNat = 10 ||
  c.toNat = 11 || c.toNat = 12 || c.toNat = 13

/-- Accumulate the value of a maximal digit run, returning the value and the
unconsumed remainder, starting from accumulator a. -/
def digitsToNatAux : List Char → Nat → Nat × List Char
  | [], a => (a, [])
  | c :: cs, a =>
    if isDigitC c then digitsToNatAux cs (a * 10 + (c.toNat - 48)) else (a, c :: cs)

/-- One scanf numeric conversion (`%hu` with bound 2^16, `%u` with bound
2^32): skip whitespace, require at least one digit, consume the maximal
digit run.  A missing digit leaves the target variable uninitialized and a
value outside the target type's range is undefined (C11 7.21.6.2p10); both
are modelled as none.  (Optional sign characters, which scanf would also
accept, are not modelled; no claim concerns signed fields.) -/
def scanNat (bound : Nat) (s : List Char) : Option (Nat × List Char) :=
  match s.dropWhile isSpaceC with
  | [] => none
  | c :: cs =>
    if isDigitC c then
      match digitsToNatAux (c :: cs) 0 with
      | (n, rest) => if n < bound then some (n, rest) else none
    else none

/-- The literal `,` between the two `%hu` conversions of
`fscanf(fp, "%hu,%hu,", ...)`.  If it fails to match, fscanf returns before
the second conversion and `texture->h` stays uninitialized, so any further
use of it is undefined: modelled as none. -/
def expectComma : List Char → Option (List Char)
  | ',' :: cs => some cs
  | _ => none

/-- A trailing literal `,` whose match failure is harmless: it is the last
directive of its fscanf call, so the value before it is already assigned and
the next fscanf call simply resumes at the unconsumed character. -/
def skipComma : List Char → List Char
  | ',' :: cs => cs
  | s => s

/-- The data loop of readTexture: `size` executions of
`fscanf(fp, "%u,", &texture->data[i])`. -/
def scanVals : Nat → List Char → Option (List Nat × List Char)
  | 0, s => some ([], s)
  | n + 1, s => do
    let (v, s1) ← scanNat (2 ^ 32) s
    let s2 := skipComma s1
    let (vs, s3) ← scanVals n s2
    some (v :: vs, s3)

/-- Embedding of initTexture_i: store the extents, allocate w*h uint32
slots, copy the first w*h caller-supplied values.  The loop reads `data[i]`
for every i < w*h, so a caller array shorter than that is an out-of-bounds
read (undefined): none.  Allocation of the requested size is modelled as
succeeding, matching the assert-and-abort-on-failure code, and calloc(0)
as returning a usable empty allocation (glibc behavior). -/
def initTexture_i (w h : Nat) (d : List Nat) : Option Texture := do
  let size ← cSize w h
  if d.length < size then none else some { w := w, h := h, data := d.take size }

/-- A nonnegative finite IEEE-754 single-precision value, modelled as the
dyadic rational num / 2 ^ exp (every such float has this form). -/
structure F32 where
  num : Nat
  exp : Nat
deriving DecidableEq, Repr

/-- Embedding of the element computation of initTexture_f:
`(uint32_t)(UINT32_MAX * data[i])` with `data` of type `const float *`.
UINT32_MAX (4294967295, an unsigned int) is converted to float by the usual
arithmetic conversions; the representable single-precision neighbours of
4294967295 are 4294967040 = 2^32 - 2^8 and 4294967296 = 2^32, so
round-to-nearest yields exactly 2^32.  Multiplying a float in [0, 1] by
2^32 only shifts its exponent and is exact (the result stays far below the
overflow threshold and subnormals become normal), so the product is the
exact rational 2^32 * x.  The float-to-uint32_t conversion then truncates
toward zero, and is undefined (C11 6.3.1.4p1) when the truncated value is
not representable in uint32_t --- in particular for x = 1.0, where the
product is 2^32 itself.  The undefined case is modelled as none. -/
def scaleToU32 (x : F32) : Option Nat :=
  let t := 2 ^ 32 * x.num / 2 ^ x.exp
  if t < 2 ^ 32 then some t else none

/-- Embedding of initTexture_f: like initTexture_i but each float sample is
scaled by scaleToU32. -/
def initTexture_f (w h : Nat) (d : List F32) : Option Texture := do
  let size ← cSize w h
  if d.length < size then none
  else ((d.take size).mapM scaleToU32).map fun vals => { w := w, h := h, data := vals }

/-- Embedding of writeTexture: the characters the fprintf calls emit, i.e.
`"%hu,%hu,"` for the extents followed by `"%u,"` for each of the first
w*h data values.  The loop reads `data[i]` for every i < w*h, so a buffer
shorter than that is an out-of-bounds read (undefined): none.  The file is
the returned character list; opening the path is modelled as succeeding,
matching the assert-and-abort code. -/
def writeTexture (t : Texture) : Option (List Char) := do
  let size ← cSize t.w t.h
  if t.data.length < size then none
  else
    some (uDigits t.w ++ ',' :: uDigits t.h ++ ',' ::
      ((t.data.take size).map fun v => uDigits v ++ [',']).flatten)

/-- Embedding of readTexture on the contents of the opened file:
`fscanf(fp, "%hu,%hu,", &w, &h)`, then `size = w * h` (the promoted int
multiplication, cSize), `malloc` of that many uint32 slots (modelled as
succeeding, with malloc(0) usable, as in writeTexture's allocation note),
then `size` executions of `fscanf(fp, "%u,", &data[i])`. -/
def readTexture (s : List Char) : Option Texture := do
  let (w, s1) ← scanNat (2 ^ 16) s
  let s2 ← expectComma s1
  let (h, s3) ← scanNat (2 ^ 16) s2
  let s4 := skipComma s3
  let size ← cSize w h
  let (vs, _) ← scanVals size s4
  some { w := w, h := h, data := vs }

/-- A texture every populating operation can actually produce: extents fit
uint16, the promoted int multiplication w*h did not overflow, the buffer
has w*h elements and each fits uint32. -/
def Populated (t : Texture) : Prop :=
  t.w < 2 ^ 16 ∧ t.h < 2 ^ 16 ∧ t.w * t.h ≤ 2147483647 ∧
    t.data.length = t.w * t.h ∧ ∀ v ∈ t.data, v < 2 ^ 32

instance (t : Texture) : Decidable (Populated t) := by
  unfold Populated; infer_instance

/-- Memory-level view of a texture for the deallocation claims: the data
field is the pointer itself (none models NULL), and the contents live in a
separately tracked set of live allocations. -/
structure TextureM where
  w : Nat
  h : Nat
  data : Option Nat
deriving DecidableEq, Repr

/-- C free on the tracked allocation set: free(NULL) is a no-op
(C11 7.22.3.3p2); freeing a pointer that is not a currently live allocation
(a double free) is undefined: none. -/
def cfree (live : List Nat) : Option Nat → Option (List Nat)
  | none => some live
  | some p => if p ∈ live then some (live.erase p) else none

/-- Embedding of freeTexture: `free(texture->data); texture->data = NULL;`. -/
def freeTexture (t : TextureM) (live : List Nat) : Option (TextureM × List Nat) :=
  (cfree live t.data).map fun live2 => ({ w := t.w, h := t.h, data := none }, live2)

/-- The head of the character list, if any, is not a decimal digit (so a
maximal digit run ending right before it really ends there). -/
def headNotDigit : List Char → Prop
  | [] => True
  | c :: _ => isDigitC c = false

instance : ∀ s, Decidable (headNotDigit s)
  | [] => inferInstanceAs (Decidable True)
  | _ :: _ => inferInstanceAs (Decidable (_ = false))

/-- A syntactically valid decimal field of the CSV record: a nonempty run
of decimal digits. -/
def digitField (f : List Char) : Prop := f ≠ [] ∧ ∀ c ∈ f, isDigitC c = true

instance (f : List Char) : Decidable (digitField f) := by
  unfold digitField; infer_instance

/-- The numeric value of a decimal field. -/
def fieldVal (f : List Char) : Nat := f.foldl (fun a c => a * 10 + (c.toNat - 48)) 0

/-- The file layout the spec describes: every field, including the last,
followed by a comma, nothing else. -/
def recordOfFields (fs : List (List Char)) : List Char :=
  (fs.map fun f => f ++ [',']).flatten

/-- Fields of a well-formed record whose header declares the largest uint16
extents: 65535, 65535, followed by 65535 * 65535 zero data fields. -/
def bigFields : List (List Char) :=
  ['6', '5', '5', '3', '5'] :: ['6', '5', '5', '3', '5'] ::
    List.replicate (65535 * 65535) ['0']

/-- State-passing view of writeTexture for the frame-effect claim: the
parameter is `const Texture *` and the body contains no store to the
texture (only fopen, fprintf and fclose), so the texture component of the
post-state is the unchanged input. -/
def writeTextureSt (t : Texture) : Option (List Char × Texture) :=
  (writeTexture t).map fun s => (s, t)

/-! ### Printing and scanning decimal fields -/

theorem uDigitsGo_append (fuel : Nat) : ∀ n acc, n < fuel →
    uDigitsGo fuel n acc = uDigitsGo fuel n [] ++ acc := by
  induction fuel with
  | zero => intro n acc h; omega
  | succ fuel ih =>
    intro n acc h
    by_cases h10 : n < 10
    · simp [uDigitsGo, h10]
    · have hlt : n / 10 < fuel := by omega
      simp only [uDigitsGo, if_neg h10]
      rw [ih (n / 10) (Char.ofNat (48 + n % 10) :: acc) hlt,
        ih (n / 10) [Char.ofNat (48 + n % 10)] hlt]
      simp

theorem uDigitsGo_fuel : ∀ fuel fuel2 n acc, n < fuel → n < fuel2 →
    uDigitsGo fuel n acc = uDigitsGo fuel2 n acc := by
  intro fuel
  induction fuel with
  | zero => intro fuel2 n acc h _; omega
  | succ fuel ih =>
    intro fuel2 n acc h h2
    cases fuel2 with
    | zero => omega
    | succ fuel2 =>
      by_cases h10 : n < 10
      · simp [uDigitsGo, h10]
      · simp only [uDigitsGo, if_neg h10]
        exact ih fuel2 (n / 10) _ (by omega) (by omega)

theorem uDigits_of_lt (n : Nat) (h : n < 10) : uDigits n = [Char.ofNat (48 + n)] := by
  simp [uDigits, uDigitsGo, h, Nat.mod_eq_of_lt h]

theorem uDigits_of_ge (n : Nat) (h : 10 ≤ n) :
    uDigits n = uDigits (n / 10) ++ [Char.ofNat (48 + n % 10)] := by
  show uDigitsGo (n + 1) n [] = _
  simp only [uDigitsGo, if_neg (by omega : ¬ n < 10)]
  rw [uDigitsGo_append n (n / 10) _ (by omega),
    uDigitsGo_fuel n (n / 10 + 1) (n / 10) [] (by omega) (by omega)]
  rfl

theorem toNat_digitChar (m : Nat) (h : m < 10) : (Char.ofNat (48 + m)).toNat = 48 + m := by
  interval_cases m <;> rfl

theorem uDigits_all_digits (n : Nat) : ∀ c ∈ uDigits n, isDigitC c = true := by
  induction n using Nat.strong_induction_on with
  | _ n ih =>
    by_cases h : n < 10
    · rw [uDigits_of_lt n h]
      intro c hc
      simp only [List.mem_singleton] at hc
      subst hc
      simp only [isDigitC, toNat_digitChar n h, Bool.and_eq_true, decide_eq_true_eq]
      omega
    · rw [uDigits_of_ge n (by omega)]
      intro c hc
      rw [List.mem_append] at hc
      rcases hc with hc | hc
      · exact ih (n / 10) (by omega) c hc
      · simp only [List.mem_singleton] at hc
        subst hc
        simp only [isDigitC, toNat_digitChar (n % 10) (by omega), Bool.and_eq_true,
          decide_eq_true_eq]
        omega

theorem uDigits_ne_nil (n : Nat) : uDigits n ≠ [] := by
  by_cases h : n < 10
  · rw [uDigits_of_lt n h]; simp
  · rw [uDigits_of_ge n (by omega)]; simp

theorem foldl_uDigits (n : Nat) : ∀ a : Nat,
    (uDigits n).foldl (fun x c => x * 10 + (c.toNat - 48)) a
      = a * 10 ^ (uDigits n).length + n := by
  induction n using Nat.strong_induction_on with
  | _ n ih =>
    intro a
    by_cases h : n < 10
    · rw [uDigits_of_lt n h]
      simp [toNat_digitChar n h]
    · have h10 : 10 ≤ n := by omega
      rw [uDigits_of_ge n h10, List.foldl_append, ih (n / 10) (by omega) a]
      simp only [List.foldl_cons, List.foldl_nil, List.length_append, List.length_cons,
        List.length_nil, toNat_digitChar (n % 10) (by omega)]
      have hsub : 48 + n % 10 - 48 = n % 10 := by omega
      rw [hsub, Nat.zero_add, pow_succ]
      have hdm : n / 10 * 10 + n % 10 = n := by omega
      calc (a * 10 ^ (uDigits (n / 10)).length + n / 10) * 10 + n % 10
          = a * (10 ^ (uDigits (n / 10)).length * 10) + (n / 10 * 10 + n % 10) := by ring
        _ = a * (10 ^ (uDigits (n / 10)).length * 10) + n := by rw [hdm]

theorem fieldVal_uDigits (n : Nat) : fieldVal (uDigits n) = n := by
  simp [fieldVal, foldl_uDigits n 0]

theorem digitField_uDigits (n : Nat) : digitField (uDigits n) :=
  ⟨uDigits_ne_nil n, uDigits_all_digits n⟩

theorem digitsToNatAux_stop (s : List Char) (a : Nat) (h : headNotDigit s) :
    digitsToNatAux s a = (a, s) := by
  cases s with
  | nil => rfl
  | cons c cs =>
    simp only [headNotDigit] at h
    simp [digitsToNatAux, h]

theorem digitsToNatAux_run (ds : List Char) : ∀ (rest : List Char) (a : Nat),
    (∀ c ∈ ds, isDigitC c = true) → headNotDigit rest →
    digitsToNatAux (ds ++ rest) a
      = (ds.foldl (fun x c => x * 10 + (c.toNat - 48)) a, rest) := by
  induction ds with
  | nil => intro rest a _ h; simpa using digitsToNatAux_stop rest a h
  | cons c cs ih =>
    intro rest a hds h
    have hc : isDigitC c = true := hds c (by simp)
    simp only [List.cons_append, digitsToNatAux, hc, if_true, List.foldl_cons]
    exact ih rest _ (fun d hd => hds d (by simp [hd])) h

theorem isSpaceC_eq_false_of_digit (c : Char) (h : isDigitC c = true) : isSpaceC c = false := by
  simp only [isDigitC, Bool.and_eq_true, decide_eq_true_eq] at h
  simp only [isSpaceC, Bool.or_eq_false_iff, decide_eq_false_iff_not]
  omega

theorem scanNat_field (bound : Nat) (f rest : List Char) (hf : digitField f)
    (hv : fieldVal f < bound) (hrest : headNotDigit rest) :
    scanNat bound (f ++ rest) = some (fieldVal f, rest) := by
  obtain ⟨hne, hds⟩ := hf
  obtain ⟨c, cs, rfl⟩ := List.exists_cons_of_ne_nil hne
  have hc : isDigitC c = true := hds c (by simp)
  have hcs : isSpaceC c = false := isSpaceC_eq_false_of_digit c hc
  have hsplit : (c :: cs) ++ rest = c :: (cs ++ rest) := by simp
  rw [hsplit]
  simp only [scanNat, List.dropWhile_cons, hcs, if_false, Bool.false_eq_true, hc, if_true]
  rw [show c :: (cs ++ rest) = (c :: cs) ++ rest by simp]
  rw [digitsToNatAux_run (c :: cs) rest 0 hds hrest]
  have hv2 : List.foldl (fun x d => x * 10 + (d.toNat - 48)) (c.toNat - 48) cs < bound := by
    simpa [fieldVal] using hv
  simp [fieldVal, hv2]

theorem recordOfFields_cons (f : List Char) (fs : List (List Char)) :
    recordOfFields (f :: fs) = f ++ ',' :: recordOfFields fs := by
  simp [recordOfFields]

theorem headNotDigit_comma (s : List Char) : headNotDigit (',' :: s) := by
  simp only [headNotDigit]
  decide

theorem scanVals_record : ∀ (k : Nat) (fs : List (List Char)), k ≤ fs.length →
    (∀ f ∈ fs, digitField f ∧ fieldVal f < 2 ^ 32) →
    scanVals k (recordOfFields fs)
      = some ((fs.take k).map fieldVal, recordOfFields (fs.drop k)) := by
  intro k
  induction k with
  | zero => intro fs _ _; simp [scanVals]
  | succ k ih =>
    intro fs hk hfs
    cases fs with
    | nil => simp at hk
    | cons f fs =>
      obtain ⟨hdf, hfv⟩ := hfs f (by simp)
      rw [recordOfFields_cons]
      simp only [scanVals, bind]
      rw [scanNat_field (2 ^ 32) f (',' :: recordOfFields fs) hdf hfv
        (headNotDigit_comma _)]
      have hrec := ih fs (by simpa using hk) (fun g hg => hfs g (by simp [hg]))
      simp [skipComma, hrec]

theorem scanVals_length : ∀ (n : Nat) (s : List Char) (vs : List Nat) (r : List Char),
    scanVals n s = some (vs, r) → vs.length = n := by
  intro n
  induction n with
  | zero =>
    intro s vs r h
    simp only [scanVals, Option.some_inj] at h
    cases h
    rfl
  | succ n ih =>
    intro s vs r h
    simp only [scanVals, bind, Option.bind_eq_some] at h
    obtain ⟨⟨v, s1⟩, h1, h2⟩ := h
    simp only [Option.bind_eq_some] at h2
    obtain ⟨⟨vs2, s3⟩, h3, h4⟩ := h2
    simp only [Option.some_inj, Prod.mk.injEq] at h4
    obtain ⟨h5, _⟩ := h4
    subst h5
    simp [ih _ _ _ h3]

theorem write_body_eq (l : List Nat) :
    ((l.map fun v => uDigits v ++ [',']).flatten) = recordOfFields (l.map uDigits) := by
  simp only [recordOfFields, List.map_map, Function.comp_def]

theorem fields_map_uDigits (l : List Nat) (hl : ∀ v ∈ l, v < 2 ^ 32) :
    ∀ f ∈ l.map uDigits, digitField f ∧ fieldVal f < 2 ^ 32 := by
  intro f hf
  obtain ⟨v, hv, rfl⟩ := List.mem_map.mp hf
  exact ⟨digitField_uDigits v, by rw [fieldVal_uDigits]; exact hl v hv⟩

theorem mapM_scaleToU32_length : ∀ (l : List F32) (out : List Nat),
    l.mapM scaleToU32 = some out → out.length = l.length := by
  intro l
  induction l with
  | nil =>
    intro out h
    simp only [List.mapM_nil, pure, Option.some_inj] at h
    simp [← h]
  | cons x xs ih =>
    intro out h
    rw [List.mapM_cons] at h
    simp only [bind, Option.bind_eq_some, pure, Option.some_inj] at h
    obtain ⟨b, _, bs, hbs, hout⟩ := h
    subst hout
    simp [ih bs hbs]

theorem readTexture_fields (f0 f1 : List Char) (r : List Char)
    (h0 : digitField f0) (h1 : digitField f1)
    (hw : fieldVal f0 < 2 ^ 16) (hh : fieldVal f1 < 2 ^ 16) :
    readTexture (f0 ++ ',' :: (f1 ++ ',' :: r))
      = (do
          let size ← cSize (fieldVal f0) (fieldVal f1)
          let (vs, _) ← scanVals size r
          some { w := fieldVal f0, h := fieldVal f1, data := vs }) := by
  simp only [readTexture, bind]
  rw [scanNat_field (2 ^ 16) f0 (',' :: (f1 ++ ',' :: r)) h0 hw (headNotDigit_comma _)]
  simp only [Option.some_bind, expectComma]
  rw [scanNat_field (2 ^ 16) f1 (',' :: r) h1 hh (headNotDigit_comma _)]
  simp only [Option.some_bind, skipComma]

/-! ### The documented properties -/

/-- C1: for every populated texture (uint16 extents, a data buffer of
length w*h of uint32 values, as every populating operation produces),
writing with writeTexture and reading the resulting file contents back
with readTexture yields a texture with the same width, the same height and
the same data sequence. -/
theorem c1_write_read_round_trip (t : Texture) (hp : Populated t) :
    ∃ s, writeTexture t = some s ∧ readTexture s = some t := by
  obtain ⟨w, h, data⟩ := t
  obtain ⟨hw, hh, hmul, hlen, hvals⟩ := hp
  simp only at hw hh hmul hlen hvals
  have hsize : cSize w h = some (w * h) := by simp [cSize, hmul]
  have hwrite : writeTexture ⟨w, h, data⟩
      = some (uDigits w ++ ',' :: (uDigits h ++ ',' :: recordOfFields (data.map uDigits))) := by
    simp only [writeTexture, bind, hsize, Option.some_bind]
    rw [if_neg (by omega), ← hlen, List.take_length, write_body_eq]
    simp
  refine ⟨_, hwrite, ?_⟩
  rw [readTexture_fields (uDigits w) (uDigits h) (recordOfFields (data.map uDigits))
    (digitField_uDigits w) (digitField_uDigits h)
    (by rw [fieldVal_uDigits]; exact hw) (by rw [fieldVal_uDigits]; exact hh)]
  simp only [fieldVal_uDigits, bind, hsize, Option.some_bind]
  rw [scanVals_record (w * h) (data.map uDigits)
    (by simp [hlen]) (fields_map_uDigits data hvals)]
  simp only [Option.some_bind]
  have htake : (data.map uDigits).take (w * h) = data.map uDigits := by
    rw [← hlen]; simp [List.take_length]
  rw [htake, List.map_map, show fieldVal ∘ uDigits = id from funext fieldVal_uDigits,
    List.map_id]

theorem c1_write_read_round_trip_witness :
    ∃ s, writeTexture ⟨2, 2, [0, 4294967295, 2147483647, 1073741823]⟩ = some s
      ∧ readTexture s = some ⟨2, 2, [0, 4294967295, 2147483647, 1073741823]⟩ :=
  c1_write_read_round_trip ⟨2, 2, [0, 4294967295, 2147483647, 1073741823]⟩ (by decide)

/-- C2: evaluation of initTexture_f at the spec's own concrete case.  The
code computes `(uint32_t)(UINT32_MAX * data[i])` on float operands, where
UINT32_MAX converts to the float 2^32, so the call with samples
0.0, 1.0, 0.5, 0.25 has no defined result at all (sample 1.0 scales to
2^32, out of uint32_t range), and on the sample 0.5 alone the defined
result is 2147483648, not the documented 2147483647.  The repository's own
tests and README (which pass double samples to a function the header does
not define) expect 0, 4294967295, 2147483647, 1073741823: the float
arithmetic in the header is the slip. -/
theorem c2_init_f_eval :
    initTexture_f 2 2 [⟨0, 0⟩, ⟨1, 0⟩, ⟨1, 1⟩, ⟨1, 2⟩] = none
    ∧ initTexture_f 1 1 [⟨1, 1⟩] = some ⟨1, 1, [2147483648]⟩ := by
  constructor <;> decide

/-- C3: writeTexture emits exactly the record in which every field ---
width, height, then each data value in order --- is printed in decimal and
followed by a comma, with nothing else (no trailing newline); concretely,
the 2x2 texture with data 0, 4294967295, 2147483647, 1073741823 writes the
exact string given in the spec. -/
theorem c3_write_format :
    (∀ t : Texture, Populated t →
      writeTexture t
        = some (recordOfFields (uDigits t.w :: uDigits t.h :: t.data.map uDigits)))
    ∧ writeTexture ⟨2, 2, [0, 4294967295, 2147483647, 1073741823]⟩
        = some "2,2,0,4294967295,2147483647,1073741823,".toList := by
  constructor
  · intro t hp
    obtain ⟨w, h, data⟩ := t
    obtain ⟨hw, hh, hmul, hlen, hvals⟩ := hp
    simp only at hmul hlen
    have hsize : cSize w h = some (w * h) := by simp [cSize, hmul]
    simp only [writeTexture, bind, hsize, Option.some_bind]
    rw [if_neg (by omega), ← hlen, List.take_length, write_body_eq,
      recordOfFields_cons, recordOfFields_cons]
    simp
  · decide

theorem c3_write_format_witness :
    writeTexture ⟨2, 2, [0, 4294967295, 2147483647, 1073741823]⟩
      = some (recordOfFields
          (uDigits 2 :: uDigits 2 :: [0, 4294967295, 2147483647, 1073741823].map uDigits)) :=
  c3_write_format.1 ⟨2, 2, [0, 4294967295, 2147483647, 1073741823]⟩ (by decide)

/-- C4 counterexample: at the largest uint16 extents the claim's
universally quantified statement fails.  The sample array has exactly
width * height elements as the claim requires, yet initTexture_i has no
defined result, because `w * h` multiplies two uint16_t values after
integer promotion to int and 65535 * 65535 = 4294836225 overflows int. -/
theorem c4_init_i_extreme :
    (List.replicate (65535 * 65535) 0).length = 65535 * 65535
    ∧ initTexture_i 65535 65535 (List.replicate (65535 * 65535) 0) = none := by
  constructor
  · exact List.length_replicate _ _
  · decide

/-- C4 (amended): for every width, height and sample array of length
width * height, provided the mathematical product width * height is at most
2147483647 (so the promoted int multiplication in the code is defined),
initTexture_i stores the extents and copies every sample unchanged. -/
theorem c4_init_i_copies (w h : Nat) (d : List Nat)
    (hmul : w * h ≤ 2147483647) (hlen : d.length = w * h) :
    initTexture_i w h d = some ⟨w, h, d⟩ := by
  have hsize : cSize w h = some (w * h) := by simp [cSize, hmul]
  simp only [initTexture_i, bind, hsize, Option.some_bind]
  rw [if_neg (by omega), ← hlen, List.take_length]

theorem c4_init_i_copies_witness :
    initTexture_i 2 2 [9, 8, 7, 6] = some ⟨2, 2, [9, 8, 7, 6]⟩ :=
  c4_init_i_copies 2 2 [9, 8, 7, 6] (by decide) (by decide)

/-- C6 counterexample: at the largest uint16 extents the populating
operations do not complete at all, so no data buffer of length
width * height arises: the uint16 multiplication w * h is promoted to int
and 65535 * 65535 overflows it (and, were the wrapped size passed on, the
huge allocation would fail and the assert would abort the process). -/
theorem c6_init_f_extreme :
    (List.replicate (65535 * 65535) (F32.mk 0 0)).length = 65535 * 65535
    ∧ initTexture_f 65535 65535 (List.replicate (65535 * 65535) (F32.mk 0 0)) = none := by
  constructor
  · exact List.length_replicate _ _
  · decide

/-- C6 (amended): whenever a populating operation (initTexture_f,
initTexture_i or readTexture) completes, the resulting data buffer has
length exactly width * height --- and completion itself entails that the
mathematical product width * height is at most 2147483647, so the invariant
cannot be exhibited at the largest representable extents. -/
theorem c6_data_length_invariant (w h : Nat) (df : List F32) (di : List Nat)
    (s : List Char) (t1 t2 t3 : Texture) :
    (initTexture_f w h df = some t1
      → t1.data.length = t1.w * t1.h ∧ t1.w * t1.h ≤ 2147483647)
    ∧ (initTexture_i w h di = some t2
      → t2.data.length = t2.w * t2.h ∧ t2.w * t2.h ≤ 2147483647)
    ∧ (readTexture s = some t3
      → t3.data.length = t3.w * t3.h ∧ t3.w * t3.h ≤ 2147483647) := by
  refine ⟨?_, ?_, ?_⟩
  · intro hf
    by_cases hmul : w * h ≤ 2147483647
    · have hsize : cSize w h = some (w * h) := by simp [cSize, hmul]
      simp only [initTexture_f, bind, hsize, Option.some_bind] at hf
      by_cases hl : df.length < w * h
      · rw [if_pos hl] at hf; exact absurd hf (by simp)
      · rw [if_neg hl] at hf
        simp only [Option.map_eq_some'] at hf
        obtain ⟨vals, hvals, rfl⟩ := hf
        have hml := mapM_scaleToU32_length (df.take (w * h)) vals hvals
        refine ⟨?_, hmul⟩
        simp only
        rw [hml, List.length_take]
        omega
    · have hsize : cSize w h = none := by simp [cSize, hmul]
      simp [initTexture_f, bind, hsize] at hf
  · intro hi
    by_cases hmul : w * h ≤ 2147483647
    · have hsize : cSize w h = some (w * h) := by simp [cSize, hmul]
      simp only [initTexture_i, bind, hsize, Option.some_bind] at hi
      by_cases hl : di.length < w * h
      · rw [if_pos hl] at hi; exact absurd hi (by simp)
      · rw [if_neg hl] at hi
        obtain rfl := Option.some_inj.mp hi
        exact ⟨by simp [List.length_take]; omega, hmul⟩
    · have hsize : cSize w h = none := by simp [cSize, hmul]
      simp [initTexture_i, bind, hsize] at hi
  · intro hr
    simp only [readTexture, bind, Option.bind_eq_some] at hr
    obtain ⟨⟨w1, s1⟩, _, s2, _, ⟨h1, s3⟩, _, size, hsize, ⟨vs, s5⟩, hvs, hr⟩ := hr
    obtain rfl := Option.some_inj.mp hr
    have hlen := scanVals_length size (skipComma s3) vs s5 hvs
    simp only [cSize] at hsize
    by_cases hmul : w1 * h1 ≤ 2147483647
    · rw [if_pos hmul] at hsize
      obtain rfl := Option.some_inj.mp hsize
      exact ⟨by simpa using hlen, hmul⟩
    · rw [if_neg hmul] at hsize
      exact absurd hsize (by simp)

theorem c6_data_length_invariant_witness :
    (⟨2, 3, [1, 2, 3, 4, 5, 6]⟩ : Texture).data.length
        = (⟨2, 3, [1, 2, 3, 4, 5, 6]⟩ : Texture).w * (⟨2, 3, [1, 2, 3, 4, 5, 6]⟩ : Texture).h
    ∧ (⟨2, 3, [1, 2, 3, 4, 5, 6]⟩ : Texture).w * (⟨2, 3, [1, 2, 3, 4, 5, 6]⟩ : Texture).h
        ≤ 2147483647 :=
  (c6_data_length_invariant 2 3 [] [1, 2, 3, 4, 5, 6] [] ⟨0, 0, []⟩
    ⟨2, 3, [1, 2, 3, 4, 5, 6]⟩ ⟨0, 0, []⟩).2.1 (by decide)

/-- C5 counterexample: a well-formed record --- its fields are all nonempty
digit runs with in-range values, and there are exactly 2 + width * height
of them --- on which readTexture has no defined result, because its header
declares width = height = 65535 and the size computation
`size_t size = texture->w * texture->h` overflows the promoted int
multiplication before any data field is read. -/
theorem c5_read_extreme :
    bigFields.length = 2 + 65535 * 65535
    ∧ (∀ f ∈ bigFields, digitField f ∧ fieldVal f < 2 ^ 32)
    ∧ fieldVal ['6', '5', '5', '3', '5'] = 65535
    ∧ readTexture (recordOfFields bigFields) = none := by
  refine ⟨?_, ?_, by decide, ?_⟩
  · show (_ :: _ :: List.replicate (65535 * 65535) ['0']).length = _
    rw [List.length_cons, List.length_cons, List.length_replicate]
  · intro f hf
    rcases List.mem_cons.mp hf with rfl | hf
    · decide
    rcases List.mem_cons.mp hf with rfl | hf
    · decide
    · rw [List.eq_of_mem_replicate hf]
      decide
  · have e1 : recordOfFields bigFields
        = ['6', '5', '5', '3', '5'] ++ ',' ::
          (['6', '5', '5', '3', '5'] ++ ',' ::
            recordOfFields (List.replicate (65535 * 65535) ['0'])) := by
      rw [show bigFields = ['6', '5', '5', '3', '5'] :: ['6', '5', '5', '3', '5'] ::
          List.replicate (65535 * 65535) ['0'] from rfl,
        recordOfFields_cons, recordOfFields_cons]
    rw [e1, readTexture_fields _ _ _ (by decide) (by decide) (by decide) (by decide)]
    have hnone : cSize (fieldVal ['6', '5', '5', '3', '5'])
        (fieldVal ['6', '5', '5', '3', '5']) = none := by
      rw [cSize, if_neg (by decide)]
    simp only [bind, hnone, Option.none_bind]

/-- C5 (amended): for every well-formed record --- first two fields the
decimal width and height, followed by at least width * height further
decimal data fields, all within the uint16 / uint32 ranges of the format
--- provided additionally that width * height is at most 2147483647 (so
the promoted int multiplication in the code is defined), readTexture
parses field one as width, field two as height, and fills the data buffer
with the next width * height field values in order. -/
theorem c5_read_parses_fields (f0 f1 : List Char) (fs : List (List Char))
    (h0 : digitField f0) (h1 : digitField f1)
    (hw : fieldVal f0 < 2 ^ 16) (hh : fieldVal f1 < 2 ^ 16)
    (hmul : fieldVal f0 * fieldVal f1 ≤ 2147483647)
    (hlen : fieldVal f0 * fieldVal f1 ≤ fs.length)
    (hfs : ∀ f ∈ fs, digitField f ∧ fieldVal f < 2 ^ 32) :
    readTexture (recordOfFields (f0 :: f1 :: fs))
      = some ⟨fieldVal f0, fieldVal f1,
          (fs.take (fieldVal f0 * fieldVal f1)).map fieldVal⟩ := by
  rw [recordOfFields_cons, recordOfFields_cons,
    readTexture_fields f0 f1 (recordOfFields fs) h0 h1 hw hh]
  have hsize : cSize (fieldVal f0) (fieldVal f1) = some (fieldVal f0 * fieldVal f1) := by
    simp [cSize, hmul]
  simp only [bind, hsize, Option.some_bind]
  rw [scanVals_record (fieldVal f0 * fieldVal f1) fs hlen hfs]
  simp only [Option.some_bind]

theorem c5_read_parses_fields_witness :
    readTexture (recordOfFields (['2'] :: ['2'] :: [['7'], ['8'], ['9'], ['1', '0'], ['5']]))
      = some ⟨2, 2, [7, 8, 9, 10]⟩ := by
  have h := c5_read_parses_fields ['2'] ['2'] [['7'], ['8'], ['9'], ['1', '0'], ['5']]
    (by decide) (by decide) (by decide) (by decide) (by decide) (by decide) (by decide)
  rw [h]
  decide

/-- C7: releasing a texture whose data pointer is NULL or a live allocation
succeeds and leaves the data reference empty (NULL), and a second release
of the result is again defined --- it frees NULL, a no-op --- and returns
the identical empty state. -/
theorem c7_free_then_free (t : TextureM) (live : List Nat)
    (hv : t.data = none ∨ ∃ p, t.data = some p ∧ p ∈ live) :
    ∃ t1 live1, freeTexture t live = some (t1, live1)
      ∧ t1.data = none ∧ freeTexture t1 live1 = some (t1, live1) := by
  rcases hv with hnone | ⟨p, hp, hmem⟩
  · refine ⟨⟨t.w, t.h, none⟩, live, ?_, rfl, ?_⟩
    · simp [freeTexture, cfree, hnone]
    · simp [freeTexture, cfree]
  · refine ⟨⟨t.w, t.h, none⟩, live.erase p, ?_, rfl, ?_⟩
    · simp [freeTexture, cfree, hp, hmem]
    · simp [freeTexture, cfree]

theorem c7_free_then_free_witness :
    ∃ t1 live1, freeTexture ⟨3, 4, some 0⟩ [0] = some (t1, live1)
      ∧ t1.data = none ∧ freeTexture t1 live1 = some (t1, live1) :=
  c7_free_then_free ⟨3, 4, some 0⟩ [0] (Or.inr ⟨0, rfl, by decide⟩)

/-- C8: with width = 0 or height = 0 both initializers succeed with an
empty data buffer regardless of the sample array (the copy loop runs zero
times, so no sample or buffer index is accessed), and writeTexture on the
resulting texture emits only the two header fields. -/
theorem c8_zero_extent (w h : Nat) (df : List F32) (di : List Nat)
    (hz : w = 0 ∨ h = 0) :
    initTexture_f w h df = some ⟨w, h, []⟩
    ∧ initTexture_i w h di = some ⟨w, h, []⟩
    ∧ writeTexture ⟨w, h, []⟩ = some (uDigits w ++ ',' :: uDigits h ++ [',']) := by
  have hwh : w * h = 0 := by rcases hz with rfl | rfl <;> simp
  have hsize : cSize w h = some 0 := by simp [cSize, hwh]
  refine ⟨?_, ?_, ?_⟩
  · simp only [initTexture_f, bind, hsize, Option.some_bind]
    rw [if_neg (by omega)]
    rfl
  · simp [initTexture_i, bind, hsize]
  · simp [writeTexture, bind, hsize]

theorem c8_zero_extent_witness :
    initTexture_f 0 7 [⟨1, 1⟩] = some ⟨0, 7, []⟩
    ∧ initTexture_i 0 7 [42] = some ⟨0, 7, []⟩
    ∧ writeTexture ⟨0, 7, []⟩ = some (uDigits 0 ++ ',' :: uDigits 7 ++ [',']) :=
  c8_zero_extent 0 7 [⟨1, 1⟩] [42] (Or.inl rfl)

/-- C9: serializing does not modify the texture: when writeTextureSt
succeeds the post-state texture has the same width, height and data as the
input, and serializing again from that state produces the identical output
and state. -/
theorem c9_write_leaves_texture (t : Texture) (s1 : List Char) (t1 : Texture)
    (_hp : Populated t) (h : writeTextureSt t = some (s1, t1)) :
    t1.w = t.w ∧ t1.h = t.h ∧ t1.data = t.data
      ∧ writeTextureSt t1 = some (s1, t1) := by
  simp only [writeTextureSt, Option.map_eq_some'] at h
  obtain ⟨s, hs, heq⟩ := h
  injection heq with h1 h2
  subst h1
  subst h2
  refine ⟨rfl, rfl, rfl, ?_⟩
  simp only [writeTextureSt, hs, Option.map_some']

theorem c9_write_leaves_texture_witness :
    (⟨1, 1, [5]⟩ : Texture).w = (⟨1, 1, [5]⟩ : Texture).w
    ∧ (⟨1, 1, [5]⟩ : Texture).h = (⟨1, 1, [5]⟩ : Texture).h
    ∧ (⟨1, 1, [5]⟩ : Texture).data = (⟨1, 1, [5]⟩ : Texture).data
    ∧ writeTextureSt ⟨1, 1, [5]⟩ = some ("1,1,5,".toList, ⟨1, 1, [5]⟩) :=
  c9_write_leaves_texture ⟨1, 1, [5]⟩ "1,1,5,".toList ⟨1, 1, [5]⟩ (by decide) (by decide)

/-- C10: releasing clears only the data reference: whenever freeTexture is
defined, the resulting texture keeps the exact width and height it had and
its data pointer is NULL. -/
theorem c10_free_only_clears_data (t : TextureM) (live : List Nat)
    (t1 : TextureM) (live1 : List Nat)
    (h : freeTexture t live = some (t1, live1)) :
    t1.w = t.w ∧ t1.h = t.h ∧ t1.data = none := by
  simp only [freeTexture, Option.map_eq_some'] at h
  obtain ⟨live2, _, heq⟩ := h
  injection heq with h1 h2
  subst h1
  exact ⟨rfl, rfl, rfl⟩

theorem c10_free_only_clears_data_witness :
    (⟨2, 3, none⟩ : TextureM).w = (⟨2, 3, some 7⟩ : TextureM).w
    ∧ (⟨2, 3, none⟩ : TextureM).h = (⟨2, 3, some 7⟩ : TextureM).h
    ∧ (⟨2, 3, none⟩ : TextureM).data = none :=
  c10_free_only_clears_data ⟨2, 3, some 7⟩ [7] ⟨2, 3, none⟩ [] (by decide)

end TextureLib
